import Mathlib

/-!
Verification development for the `wandb-workspaces` library: a shallow
embedding of its filter-expression mini-language (the `Metric` / `Summary` /
`Config` accessors, comparison and membership operators, AND-combination,
and the serializer/deserializer pair for the backend string query grammar),
together with models of `FilterBuilder`, `Runset`, `Workspace` saved views,
and `Report` blocks.

The Python implementation of these components is not part of the source
snapshot (only documentation, the tutorial notebook and project metadata
are), so each definition is modelled from the specification's description
of the behaviour, as marked in the doc comments.
-/

namespace WandbWorkspaces

/-- The apostrophe character used as the string-literal quote of the
backend query grammar. -/
def qc : Char := Char.ofNat 39

/-- Modelled from the spec: values that appear on the right-hand side of a
filter comparison or inside an `isin` list — string constants (quoted with
`'` in the grammar) and numeric constants (modelled as integers). -/
inductive Val where
  | str (s : String)
  | int (n : Int)
deriving DecidableEq

/-- Modelled from the spec: the three field accessors of the embedded
expression language — `Metric`, `Summary` and `Config` — each naming a run
metadata / summary / config field. -/
inductive Field where
  | metric (name : String)
  | summary (name : String)
  | config (name : String)
deriving DecidableEq

/-- Modelled from the spec: the comparison operators of the grammar:
`==`, `!=`, `<`, `<=`, `>`, `>=`. -/
inductive Op where
  | eq | ne | lt | le | gt | ge
deriving DecidableEq

/-- Modelled from the spec: an atomic filter expression — a comparison of a
field against a value, or membership (`isin`) of a field in a list of
values. -/
inductive FilterExpr where
  | cmp (f : Field) (o : Op) (v : Val)
  | isin (f : Field) (vs : List Val)
deriving DecidableEq

/-- Modelled from the spec: a filter is a boolean AND-combination of atomic
filter expressions (the only boolean combinator of the grammar). -/
abbrev Filters := List FilterExpr

/-- Little-endian decimal digits of a natural number, with explicit fuel so
that the definition is structurally recursive. -/
def digitsList : Nat → Nat → List Nat
  | 0, _ => []
  | fuel+1, n => if n = 0 then [] else (n % 10) :: digitsList fuel (n / 10)

/-- Decimal rendering of a natural number as characters. -/
def natChars (n : Nat) : List Char :=
  if n = 0 then ['0'] else ((digitsList n n).map Nat.digitChar).reverse

/-- Decimal rendering of an integer as characters. -/
def intChars (n : Int) : List Char :=
  if n < 0 then '-' :: natChars n.natAbs else natChars n.toNat

/-- Modelled from the spec: serialization of a constant value in the query
grammar — strings are wrapped in single quotes, numbers are rendered in
decimal. -/
def valChars : Val → List Char
  | .str s => qc :: s.data ++ [qc]
  | .int n => intChars n

/-- Modelled from the spec: serialization of a field accessor, e.g.
`Metric('state')`, `Summary('loss').value`, `Config('epochs').value`. -/
def fieldChars : Field → List Char
  | .metric n => ("Metric('").data ++ n.data ++ ("')").data
  | .summary n => ("Summary('").data ++ n.data ++ ("').value").data
  | .config n => ("Config('").data ++ n.data ++ ("').value").data

/-- Serialization of a comparison operator. -/
def opChars : Op → List Char
  | .eq => ("==").data
  | .ne => ("!=").data
  | .lt => ("<").data
  | .le => ("<=").data
  | .gt => (">").data
  | .ge => (">=").data

/-- Serialization of a comma-separated value list (the body of `in [...]`). -/
def valListChars : List Val → List Char
  | [] => []
  | [v] => valChars v
  | v :: vs => valChars v ++ (", ").data ++ valListChars vs

/-- Modelled from the spec: serialization of an atomic filter expression,
e.g. `Summary('loss').value < 5` or `Metric('displayName') in ['a', 'b']`. -/
def atomChars : FilterExpr → List Char
  | .cmp f o v => fieldChars f ++ [' '] ++ opChars o ++ [' '] ++ valChars v
  | .isin f vs => fieldChars f ++ (" in [").data ++ valListChars vs ++ ("]").data

/-- Modelled from the spec: serialization of an AND-combination of atomic
filters, joined with the keyword `and`. -/
def filtersChars : Filters → List Char
  | [] => []
  | [a] => atomChars a
  | a :: rest => atomChars a ++ (" and ").data ++ filtersChars rest

/-- Modelled from the spec: the serializer from filter expressions to the
single backend query-grammar string. -/
def serializeFilters (fs : Filters) : String := String.mk (filtersChars fs)

/-- Consume an exact expected sequence of characters, returning the rest. -/
def expects : List Char → List Char → Option (List Char)
  | [], l => some l
  | _ :: _, [] => none
  | p :: ps, c :: cs => if c = p then expects ps cs else none

/-- Scan the body of a quoted string constant up to (and consuming) the
closing quote. -/
def scanStr : List Char → Option (List Char × List Char)
  | [] => none
  | c :: cs =>
    if c = qc then some ([], cs)
    else (scanStr cs).map (fun r => (c :: r.1, r.2))

/-- Consume a maximal run of decimal digits, accumulating their value. -/
def parseNatAux : List Char → Nat → Nat × List Char
  | [], acc => (acc, [])
  | c :: cs, acc =>
    if c.isDigit then parseNatAux cs (acc * 10 + (c.toNat - 48)) else (acc, c :: cs)

/-- Parse a natural number literal (at least one digit). -/
def parseNat : List Char → Option (Nat × List Char)
  | [] => none
  | c :: cs => if c.isDigit then some (parseNatAux cs (c.toNat - 48)) else none

/-- Parse an integer literal with an optional leading minus sign. -/
def parseInt (l : List Char) : Option (Int × List Char) :=
  match l with
  | [] => none
  | c :: r =>
    if c = '-' then (parseNat r).map (fun p => (-(p.1 : Int), p.2))
    else (parseNat l).map (fun p => ((p.1 : Int), p.2))

/-- Parse a constant value: a quoted string or an integer literal. -/
def parseVal (l : List Char) : Option (Val × List Char) :=
  match l with
  | [] => none
  | c :: r =>
    if c = qc then (scanStr r).map (fun p => (Val.str (String.mk p.1), p.2))
    else (parseInt l).map (fun p => (Val.int p.1, p.2))

/-- Modelled from the spec: parse a field accessor of the grammar
(`Metric('...')`, `Summary('...').value` or `Config('...').value`),
dispatching on the leading keyword. -/
def parseField (l : List Char) : Option (Field × List Char) :=
  match l with
  | 'M' :: r =>
    (expects (("etric('").data) r).bind (fun r1 =>
      (scanStr r1).bind (fun p =>
        (expects ((")").data) p.2).map (fun r2 => (Field.metric (String.mk p.1), r2))))
  | 'S' :: r =>
    (expects (("ummary('").data) r).bind (fun r1 =>
      (scanStr r1).bind (fun p =>
        (expects ((").value").data) p.2).map (fun r2 => (Field.summary (String.mk p.1), r2))))
  | 'C' :: r =>
    (expects (("onfig('").data) r).bind (fun r1 =>
      (scanStr r1).bind (fun p =>
        (expects ((").value").data) p.2).map (fun r2 => (Field.config (String.mk p.1), r2))))
  | _ => none

/-- Parse a nonempty comma-separated value list followed by `]`, with fuel
bounding the number of elements. -/
def parseValsNE : Nat → List Char → Option (List Val × List Char)
  | 0, _ => none
  | fuel+1, l =>
    (parseVal l).bind (fun p =>
      match p.2 with
      | ']' :: r2 => some ([p.1], r2)
      | ',' :: ' ' :: r2 => (parseValsNE fuel r2).map (fun q => (p.1 :: q.1, q.2))
      | _ => none)

/-- Parse a (possibly empty) bracketed value list body followed by `]`. -/
def parseValList (l : List Char) : Option (List Val × List Char) :=
  match expects (("]").data) l with
  | some r => some ([], r)
  | none => parseValsNE l.length l

/-- Parse the right-hand side of a comparison with a known operator. -/
def parseCmpRhs (f : Field) (o : Op) (r : List Char) : Option (FilterExpr × List Char) :=
  (parseVal r).map (fun p => (FilterExpr.cmp f o p.1, p.2))

/-- Modelled from the spec: parse the operator and right-hand side of an
atomic filter — one of `==`, `!=`, `<`, `<=`, `>`, `>=` followed by a value,
or `in` followed by a bracketed value list. -/
def parseOpRhs (f : Field) (l : List Char) : Option (FilterExpr × List Char) :=
  match l with
  | '=' :: '=' :: ' ' :: r => parseCmpRhs f .eq r
  | '!' :: '=' :: ' ' :: r => parseCmpRhs f .ne r
  | '<' :: '=' :: ' ' :: r => parseCmpRhs f .le r
  | '<' :: ' ' :: r => parseCmpRhs f .lt r
  | '>' :: '=' :: ' ' :: r => parseCmpRhs f .ge r
  | '>' :: ' ' :: r => parseCmpRhs f .gt r
  | 'i' :: 'n' :: ' ' :: '[' :: r => (parseValList r).map (fun p => (FilterExpr.isin f p.1, p.2))
  | _ => none

/-- Parse one atomic filter expression: a field accessor, a space, then the
operator and right-hand side. -/
def parseAtom (l : List Char) : Option (FilterExpr × List Char) :=
  (parseField l).bind (fun p =>
    match p.2 with
    | c :: r => if c = ' ' then parseOpRhs p.1 r else none
    | [] => none)

/-- Parse a nonempty ` and `-separated sequence of atomic filters that
consumes the whole input, with fuel bounding the number of atoms. -/
def parseAtomsNE : Nat → List Char → Option Filters
  | 0, _ => none
  | fuel+1, l =>
    (parseAtom l).bind (fun p =>
      match p.2 with
      | [] => some [p.1]
      | ' ' :: 'a' :: 'n' :: 'd' :: ' ' :: r2 =>
        (parseAtomsNE fuel r2).map (fun rest => p.1 :: rest)
      | _ => none)

/-- Modelled from the spec: the recursive-descent deserializer from the
backend query-grammar string (as characters) back to a filter expression —
the parse direction of the round-trip taken when loading a saved view. -/
def parseFiltersL (l : List Char) : Option Filters :=
  match l with
  | [] => some []
  | _ => parseAtomsNE l.length l

/-- String-level entry point of the filter deserializer. -/
def parseFilters (s : String) : Option Filters := parseFiltersL s.data

/-- A string is grammar-safe when it contains no quote character (the
grammar offers no escaping inside quoted constants). -/
def strOK (s : String) : Bool := s.data.all (fun c => c != qc)

/-- Well-formedness of a value: string constants are grammar-safe. -/
def Val.wf : Val → Bool
  | .str s => strOK s
  | .int _ => true

/-- Well-formedness of a field accessor: its name is grammar-safe. -/
def Field.wf : Field → Bool
  | .metric n => strOK n
  | .summary n => strOK n
  | .config n => strOK n

/-- Well-formedness of an atomic filter expression. -/
def atomWF : FilterExpr → Bool
  | .cmp f _ v => f.wf && v.wf
  | .isin f vs => f.wf && vs.all Val.wf

/-- Well-formedness of an AND-combination of filters. -/
def filtersWF (fs : Filters) : Bool := fs.all atomWF

/-- The head of the remaining input is not a decimal digit (true also of an
empty input) — the condition under which a maximal-munch number parse stops
exactly at a serialized boundary. -/
def headND : List Char → Bool
  | [] => true
  | c :: _ => !c.isDigit

/-- Value of a little-endian list of decimal digit values. -/
def valLE : List Nat → Nat
  | [] => 0
  | d :: ds => d + 10 * valLE ds

/-- Modelled from the spec: the table mapping UI-facing field display names
to the backend's internal field names (the UI shows `Name` for the internal
`displayName` field, and so on). -/
def fieldNameMap : List (String × String) :=
  [("Name", "displayName"), ("State", "state"), ("Tags", "tags")]

/-- Modelled from the spec: serialization maps a UI-facing display name to
the backend's internal field name, leaving unmapped names unchanged. -/
def uiToBackend (s : String) : String :=
  ((fieldNameMap.find? (fun p => p.1 == s)).map Prod.snd).getD s

/-- Modelled from the spec: deserialization maps a backend internal field
name back to its UI-facing display name, leaving unmapped names unchanged. -/
def backendToUi (s : String) : String :=
  ((fieldNameMap.find? (fun p => p.2 == s)).map Prod.fst).getD s

/-- Modelled from the spec: `FilterBuilder.name(v)` builds a filter on the
UI field `Name` using the internal key `displayName`, as a membership
filter, equivalent to the legacy string `Metric('displayName') in [v]`. -/
def FilterBuilder.name (v : String) : FilterExpr :=
  .isin (.metric ("displayName")) [.str v]

/-- Modelled from the spec: `FilterBuilder.name` with a list of run names. -/
def FilterBuilder.names (vs : List String) : FilterExpr :=
  .isin (.metric ("displayName")) (vs.map .str)

/-- Modelled from the spec: `FilterBuilder.state(v)` filters on the
internal `state` field. -/
def FilterBuilder.state (v : String) : FilterExpr :=
  .cmp (.metric ("state")) .eq (.str v)

/-- Modelled from the spec: `FilterBuilder.tags(vs)` filters on the
internal `tags` field. -/
def FilterBuilder.tags (vs : List String) : FilterExpr :=
  .isin (.metric ("tags")) (vs.map .str)

/-- Modelled from the spec: `FilterBuilder.config(key, value, op)`. -/
def FilterBuilder.config (k : String) (v : Val) (o : Op) : FilterExpr :=
  .cmp (.config k) o v

/-- Modelled from the spec: `FilterBuilder.summary(key, value, op)`. -/
def FilterBuilder.summary (k : String) (v : Val) (o : Op) : FilterExpr :=
  .cmp (.summary k) o v

/-- Modelled from the spec: `FilterBuilder.combine` joins filter groups
with boolean AND (the only supported combining operator). -/
def FilterBuilder.combine (groups : List Filters) : Filters := groups.flatten

/-- Modelled from the spec: the `filters` argument of a `Runset` is either
a legacy string in the backend query grammar or a list of built filter
expressions. -/
inductive FiltersArg where
  | legacy (s : String)
  | builders (fs : Filters)
deriving DecidableEq

/-- Modelled from the spec: normalization of the `filters` argument — a
legacy string is parsed by the grammar deserializer, a builder list is used
as is. -/
def normalizeFilters : FiltersArg → Option Filters
  | .legacy s => parseFilters s
  | .builders fs => some fs

/-- Modelled from the spec: a `Runset` names the set of runs of a project
shown by a panel grid, with an optional filter argument in either form. -/
structure Runset where
  entity : String := ""
  project : String := ""
  name : String := ""
  filters : FiltersArg := .builders []
deriving DecidableEq

/-- The backend filter string a runset's filters argument denotes. -/
def Runset.serializedFilters (r : Runset) : Option String :=
  (normalizeFilters r.filters).map serializeFilters

/-- Modelled from the spec: a sort key of the run ordering — a field and a
direction. -/
structure Ordering where
  field : Field
  ascending : Bool := true
deriving DecidableEq

/-- Modelled from the spec: per-run display settings. -/
structure RunSettings where
  color : String := ""
  disabled : Bool := false
deriving DecidableEq

/-- Modelled from the spec: runset settings of a workspace — a search
query, filters, grouping and ordering, all optional with empty defaults. -/
structure RunsetSettings where
  query : String := ""
  regex_query : Bool := false
  filters : Filters := []
  groupby : List Field := []
  order : List Ordering := []
  run_settings : List (String × RunSettings) := []
deriving DecidableEq

/-- Modelled from the spec: an experiment run, as seen by filters — its
metadata, summary and config fields. -/
structure Run where
  metricf : String → Option Val
  summaryf : String → Option Val
  configf : String → Option Val

/-- Look a field accessor up in a run. -/
def Field.lookup : Field → Run → Option Val
  | .metric n, r => r.metricf n
  | .summary n, r => r.summaryf n
  | .config n, r => r.configf n

/-- Modelled from the spec: comparison of two values of the same kind
(integers numerically, strings lexicographically); values of different
kinds are unequal. -/
def valCmp (o : Op) (a b : Val) : Bool :=
  match a, b with
  | .int x, .int y =>
    (match o with
     | .eq => x == y
     | .ne => x != y
     | .lt => decide (x < y)
     | .le => decide (x ≤ y)
     | .gt => decide (y < x)
     | .ge => decide (y ≤ x))
  | .str x, .str y =>
    (match o with
     | .eq => x == y
     | .ne => x != y
     | .lt => decide (x < y)
     | .le => decide (x ≤ y)
     | .gt => decide (y < x)
     | .ge => decide (y ≤ x))
  | _, _ => (match o with | .ne => true | _ => false)

/-- Modelled from the spec: whether a run satisfies one atomic filter —
filter expressions are predicates over run metadata/config/summary
fields. -/
def evalAtom (e : FilterExpr) (r : Run) : Bool :=
  match e with
  | .cmp f o v =>
    (match f.lookup r with
     | some w => valCmp o w v
     | none => false)
  | .isin f vs =>
    (match f.lookup r with
     | some w => vs.contains w
     | none => false)

/-- A run satisfies an AND-combination when it satisfies every atom. -/
def evalFilters (fs : Filters) (r : Run) : Bool := fs.all (fun e => evalAtom e r)

/-- Ordering of optional field values used by run sorting. -/
def ovalLe (x y : Option Val) : Bool :=
  match x, y with
  | none, _ => true
  | some _, none => false
  | some a, some b => valCmp .le a b

/-- Lexicographic run comparison along the ordering keys. -/
def runLe : List Ordering → Run → Run → Bool
  | [], _, _ => true
  | o :: os, a, b =>
    let ka := o.field.lookup a
    let kb := o.field.lookup b
    if ka = kb then runLe os a b
    else if o.ascending then ovalLe ka kb else ovalLe kb ka

/-- Modelled from the spec: sorting of the displayed runs by the ordering
keys; an empty ordering leaves the runs as they are. -/
def applyOrder (ord : List Ordering) (runs : List Run) : List Run :=
  match ord with
  | [] => runs
  | _ => runs.insertionSort (fun a b => runLe ord a b = true)

/-- Modelled from the spec: the runs a runset denotes for display — all
runs of the project, restricted by the filters and sorted by the
ordering. -/
def displayedRuns (s : RunsetSettings) (runs : List Run) : List Run :=
  applyOrder s.order (runs.filter (fun r => evalFilters s.filters r))

/-- The grouping key of a run under a groupby specification. -/
def groupKey (g : List Field) (r : Run) : List (Option Val) :=
  g.map (fun f => f.lookup r)

/-- The group of runs sharing one grouping key. -/
def groupFor (g : List Field) (runs : List Run) (k : List (Option Val)) : List Run :=
  runs.filter (fun r => decide (groupKey g r = k))

/-- Modelled from the spec: grouping of the runs by the groupby fields; an
empty groupby yields the single group of all runs. -/
def groupsOf (g : List Field) (runs : List Run) : List (List Run) :=
  if g.isEmpty then [runs]
  else ((runs.map (groupKey g)).dedup.map (fun k => groupFor g runs k))

/-- Modelled from the spec: a single chart configuration. -/
inductive Panel where
  | linePlot (x : String) (y : List String)
  | barPlot (metrics : List String)
  | scalarChart (metric : String) (groupby_aggfunc : String)
deriving DecidableEq

/-- Modelled from the spec: a workspace section — a named, openable group
of panels. -/
structure Section where
  name : String := ""
  panels : List Panel := []
  is_open : Bool := false
deriving DecidableEq

/-- Modelled from the spec: a workspace — a named arrangement of sections
and runset settings for a project; `viewId` is the identity of the backend
saved view the workspace was loaded from, if any. -/
structure Workspace where
  entity : String
  project : String
  name : String := ""
  sections : List Section := []
  runset_settings : RunsetSettings := {}
  viewId : Option Nat := none
deriving DecidableEq

/-- Modelled from the spec: a Saved View record held by the backend. -/
structure SavedView where
  entity : String
  project : String
  viewId : Nat
  name : String
  spec : Workspace
deriving DecidableEq

/-- The backend state: the list of persisted saved views. -/
abbrev Backend := List SavedView

/-- Decimal string of a natural number. -/
def natStr (n : Nat) : String := String.mk (natChars n)

/-- Modelled from the spec: the Saved View URL of a view — the project page
address with the `?nw=` query parameter naming the view. -/
def viewUrl (v : SavedView) : String :=
  "https://wandb.ai/" ++ v.entity ++ "/" ++ v.project ++ "?nw=" ++ natStr v.viewId

/-- An identifier unused by any existing saved view. -/
def freshId (b : Backend) : Nat := (b.map (fun v => v.viewId)).foldr max 0 + 1

/-- Look up a saved view by identifier. -/
def findView (b : Backend) (i : Nat) : Option SavedView :=
  b.find? (fun v => v.viewId == i)

/-- Modelled from the spec: `Workspace.save` persists the workspace on the
backend as a named Saved View of its project — updating the view it was
loaded from, or creating a fresh one — and returns the new backend state
and the saved view's URL. -/
def Workspace.save (w : Workspace) (b : Backend) : Backend × String :=
  match w.viewId with
  | some i =>
    (b.map (fun v =>
      if v.viewId = i then { v with name := w.name, spec := w } else v),
     viewUrl ⟨w.entity, w.project, i, w.name, w⟩)
  | none =>
    ((b ++ [⟨w.entity, w.project, freshId b, w.name, w⟩]),
     viewUrl ⟨w.entity, w.project, freshId b, w.name, w⟩)

/-- Modelled from the spec: `Workspace.save_as_new_view` always persists a
brand-new Saved View with a fresh identifier, regardless of where the
workspace was loaded from. -/
def Workspace.save_as_new_view (w : Workspace) (b : Backend) : Backend × String :=
  ((b ++ [⟨w.entity, w.project, freshId b, w.name, w⟩]),
   viewUrl ⟨w.entity, w.project, freshId b, w.name, w⟩)

/-- Modelled from the spec: loading a workspace from a Saved View URL reads
the view's spec from the backend and remembers the view identity. -/
def Workspace.from_url (b : Backend) (i : Nat) : Option Workspace :=
  (findView b i).map (fun v => { v.spec with viewId := some i })

/-- Untyped value of one wire-format config entry. -/
inductive SpecVal where
  | s (v : String)
  | l (vs : List String)
deriving DecidableEq

/-- Wire-format representation of a panel: a view type tag and a config
dictionary. -/
structure PanelSpec where
  viewType : String
  config : List (String × SpecVal)
deriving DecidableEq

/-- Modelled from the spec: serialization of a panel to its wire format. -/
def Panel.toSpec : Panel → PanelSpec
  | .linePlot x y => ⟨"Run History Line Plot", [("x", .s x), ("y", .l y)]⟩
  | .barPlot ms => ⟨"Bar Chart", [("metrics", .l ms)]⟩
  | .scalarChart m agg => ⟨"Scalar Chart", [("metric", .s m), ("aggregate", .s agg)]⟩

/-- Modelled from the spec: deserialization of a panel from its wire
format. -/
def Panel.fromSpec (p : PanelSpec) : Option Panel :=
  if p.viewType = "Run History Line Plot" then
    (match p.config.lookup ("x"), p.config.lookup ("y") with
     | some (.s x), some (.l y) => some (.linePlot x y)
     | _, _ => none)
  else if p.viewType = "Bar Chart" then
    (match p.config.lookup ("metrics") with
     | some (.l ms) => some (.barPlot ms)
     | _ => none)
  else if p.viewType = "Scalar Chart" then
    (match p.config.lookup ("metric"), p.config.lookup ("aggregate") with
     | some (.s m), some (.s agg) => some (.scalarChart m agg)
     | _, _ => none)
  else none

/-- Modelled from the spec: a report content block — headings, text,
panel grids, and a placeholder for block types unknown to the library. -/
inductive Block where
  | h1 (text : String)
  | h2 (text : String)
  | h3 (text : String)
  | p (text : String)
  | panelGrid (panels : List Panel)
  | unknown (typename : String)
deriving DecidableEq

/-- Wire-format representation of a report content block. -/
inductive BlockSpec where
  | heading (level : Nat) (text : String)
  | paragraph (text : String)
  | panelGrid (panels : List PanelSpec)
  | unknown (typename : String)
deriving DecidableEq

/-- Modelled from the spec: serialization of a block to the wire format. -/
def Block.toSpec : Block → BlockSpec
  | .h1 t => .heading 1 t
  | .h2 t => .heading 2 t
  | .h3 t => .heading 3 t
  | .p t => .paragraph t
  | .panelGrid ps => .panelGrid (ps.map Panel.toSpec)
  | .unknown ty => .unknown ty

/-- Modelled from the spec: deserialization of one wire block; block types
unknown to the library become `Block.unknown` instead of failing. -/
def Block.fromSpec : BlockSpec → Block
  | .heading 1 t => .h1 t
  | .heading 2 t => .h2 t
  | .heading 3 t => .h3 t
  | .heading _ _ => .unknown ("heading")
  | .paragraph t => .p t
  | .panelGrid ps => .panelGrid (ps.filterMap Panel.fromSpec)
  | .unknown ty => .unknown ty

/-- Modelled from the spec: a report — an ordered sequence of content
blocks associated with a project. -/
structure Report where
  entity : String
  project : String
  title : String := ""
  description : String := ""
  blocks : List Block := []
deriving DecidableEq

/-- Wire-format representation of a whole report. -/
structure ReportSpec where
  entity : String
  project : String
  title : String := ""
  description : String := ""
  blockSpecs : List BlockSpec := []
deriving DecidableEq

/-- Serialization of a report to the wire format. -/
def Report.toSpec (r : Report) : ReportSpec :=
  ⟨r.entity, r.project, r.title, r.description, r.blocks.map Block.toSpec⟩

/-- Deserialization of a report from the wire format. -/
def Report.fromSpec (rs : ReportSpec) : Report :=
  ⟨rs.entity, rs.project, rs.title, rs.description, rs.blockSpecs.map Block.fromSpec⟩

/-- Modelled from the spec: `Report.from_url` fetches the report's wire
spec from the backend and deserializes it, never failing on unknown block
types. -/
def Report.from_url (rs : ReportSpec) : Report := Report.fromSpec rs

/-- A Python single-quoted string literal. -/
def pyStr (s : String) : String := String.mk (qc :: s.data ++ [qc])

/-- Python code recreating one panel. -/
def panelCode : Panel → String
  | .linePlot x _ => "wr.LinePlot(x=" ++ pyStr x ++ "), "
  | .barPlot _ => "wr.BarPlot(), "
  | .scalarChart m _ => "wr.ScalarChart(metric=" ++ pyStr m ++ "), "

/-- Modelled from the spec: Python code recreating one block; a block of a
type unknown to the library becomes a comment stating that it could not be
recreated. -/
def blockCode : Block → String
  | .h1 t => "wr.H1(text=" ++ pyStr t ++ "),\n"
  | .h2 t => "wr.H2(text=" ++ pyStr t ++ "),\n"
  | .h3 t => "wr.H3(text=" ++ pyStr t ++ "),\n"
  | .p t => "wr.P(text=" ++ pyStr t ++ "),\n"
  | .panelGrid ps => "wr.PanelGrid(panels=[" ++ String.mk ((ps.map (fun q => (panelCode q).data)).flatten) ++ "]),\n"
  | .unknown ty => "# Unknown block type: " ++ ty ++ " - this block could not be recreated\n"

/-- The preamble of the generated Python code. -/
def codeHeader (r : Report) : String :=
  "import wandb_workspaces.reports.v2 as wr\n\nreport = wr.Report(\n    entity=" ++
    pyStr r.entity ++ ",\n    project=" ++ pyStr r.project ++ ",\n    title=" ++
    pyStr r.title ++ ",\n)\n\nreport.blocks = [\n"

/-- The closing lines of the generated Python code. -/
def codeFooter : String := "]\n\nreport.save()\n"

/-- Modelled from the spec: `Report.to_code` renders Python code that
recreates the report, one code fragment per block, in block order. -/
def Report.to_code (r : Report) : String :=
  String.mk ((codeHeader r).data ++ (r.blocks.map (fun b => (blockCode b).data)).flatten ++ codeFooter.data)

/-! ### Character-list expansions of the grammar literals -/

theorem dataMetric : ("Metric('").data = ['M', 'e', 't', 'r', 'i', 'c', '(', qc] := by decide

theorem dataEtric : ("etric('").data = ['e', 't', 'r', 'i', 'c', '(', qc] := by decide

theorem dataSummary : ("Summary('").data = ['S', 'u', 'm', 'm', 'a', 'r', 'y', '(', qc] := by decide

theorem dataUmmary : ("ummary('").data = ['u', 'm', 'm', 'a', 'r', 'y', '(', qc] := by decide

theorem dataConfig : ("Config('").data = ['C', 'o', 'n', 'f', 'i', 'g', '(', qc] := by decide

theorem dataOnfig : ("onfig('").data = ['o', 'n', 'f', 'i', 'g', '(', qc] := by decide

theorem dataCP : ("')").data = [qc, ')'] := by decide

theorem dataCPV : ("').value").data = [qc, ')', '.', 'v', 'a', 'l', 'u', 'e'] := by decide

theorem dataP : (")").data = [')'] := by decide

theorem dataPV : (").value").data = [')', '.', 'v', 'a', 'l', 'u', 'e'] := by decide

theorem dataComma : ((", ").data) = [',', ' '] := by decide

theorem dataIn : ((" in [").data) = [' ', 'i', 'n', ' ', '['] := by decide

theorem dataRB : (("]").data) = [']'] := by decide

theorem dataAnd : ((" and ").data) = [' ', 'a', 'n', 'd', ' '] := by decide

theorem dataEq : (("==").data) = ['=', '='] := by decide

theorem dataNeq : (("!=").data) = ['!', '='] := by decide

theorem dataLt : (("<").data) = ['<'] := by decide

theorem dataLe : (("<=").data) = ['<', '='] := by decide

theorem dataGt : ((">").data) = ['>'] := by decide

theorem dataGe : ((">=").data) = ['>', '='] := by decide

theorem mk_data (s : String) : String.mk s.data = s := rfl

/-! ### Round-trip lemmas for numbers -/

theorem digitChar_isDigit : ∀ d, d < 10 → (Nat.digitChar d).isDigit = true := by decide

theorem digitChar_toNat : ∀ d, d < 10 → (Nat.digitChar d).toNat - 48 = d := by decide

theorem digitChar_props : ∀ d, d < 10 →
    Nat.digitChar d ≠ qc ∧ Nat.digitChar d ≠ '-' ∧ Nat.digitChar d ≠ ']' := by decide

theorem expects_append (p rest : List Char) : expects p (p ++ rest) = some rest := by
  induction p with
  | nil => rfl
  | cons c cs ih => simp [expects, ih]

theorem expects_cons_ne {p c : Char} (ps l : List Char) (h : c ≠ p) :
    expects (p :: ps) (c :: l) = none := by
  simp [expects, h]

theorem scanStr_append (s rest : List Char) (h : ∀ c ∈ s, c ≠ qc) :
    scanStr (s ++ qc :: rest) = some (s, rest) := by
  induction s with
  | nil => simp [scanStr]
  | cons c cs ih =>
    have hc : c ≠ qc := h c (by simp)
    simp [scanStr, hc, ih (fun x hx => h x (by simp [hx]))]

theorem parseNatAux_stop (l : List Char) (acc : Nat) (h : headND l = true) :
    parseNatAux l acc = (acc, l) := by
  cases l with
  | nil => rfl
  | cons c cs =>
    simp only [headND, Bool.not_eq_true'] at h
    simp [parseNatAux, h]

theorem parseNatAux_digits (ds : List Nat) (acc : Nat) (rest : List Char)
    (hds : ∀ d ∈ ds, d < 10) (hrest : headND rest = true) :
    parseNatAux (ds.map Nat.digitChar ++ rest) acc =
      (ds.foldl (fun a d => a * 10 + d) acc, rest) := by
  induction ds generalizing acc with
  | nil => simpa using parseNatAux_stop rest acc hrest
  | cons d ds ih =>
    have hd : d < 10 := hds d (by simp)
    have hds' : ∀ x ∈ ds, x < 10 := fun x hx => hds x (by simp [hx])
    simp only [List.map_cons, List.cons_append, parseNatAux, digitChar_isDigit d hd,
      if_true, digitChar_toNat d hd, List.foldl_cons]
    exact ih _ hds'

theorem digitsList_lt (fuel : Nat) : ∀ n d, d ∈ digitsList fuel n → d < 10 := by
  induction fuel with
  | zero => intro n d hd; simp [digitsList] at hd
  | succ fuel ih =>
    intro n d hd
    by_cases hn : n = 0
    · simp [digitsList, hn] at hd
    · simp only [digitsList, if_neg hn, List.mem_cons] at hd
      rcases hd with h | h
      · omega
      · exact ih _ d h

theorem digitsList_val (fuel : Nat) : ∀ n, n ≤ fuel → valLE (digitsList fuel n) = n := by
  induction fuel with
  | zero =>
    intro n h
    have : n = 0 := by omega
    subst this
    rfl
  | succ fuel ih =>
    intro n h
    by_cases hn : n = 0
    · simp [digitsList, hn, valLE]
    · have h10 : n / 10 ≤ fuel := by omega
      simp only [digitsList, if_neg hn, valLE, ih _ h10]
      omega

theorem foldl_reverse_digits (ds : List Nat) (acc : Nat) :
    (ds.reverse).foldl (fun a d => a * 10 + d) acc = acc * 10 ^ ds.length + valLE ds := by
  induction ds generalizing acc with
  | nil => simp [valLE]
  | cons d ds ih =>
    simp only [List.reverse_cons, List.foldl_append, List.foldl_cons, List.foldl_nil,
      ih, valLE, List.length_cons]
    ring

theorem digitsList_ne_nil (n : Nat) (h : n ≠ 0) : digitsList n n ≠ [] := by
  cases n with
  | zero => exact absurd rfl h
  | succ m => simp [digitsList]

theorem natChars_roundtrip (n : Nat) (rest : List Char) (hrest : headND rest = true) :
    parseNat (natChars n ++ rest) = some (n, rest) := by
  by_cases hn : n = 0
  · subst hn
    have h0 : ('0').isDigit = true := by decide
    have h48 : ('0').toNat - 48 = 0 := by decide
    simp [natChars, parseNat, h0, h48, parseNatAux_stop rest 0 hrest]
  · have hne := digitsList_ne_nil n hn
    have hlt : ∀ d ∈ (digitsList n n).reverse, d < 10 := by
      intro x hx; exact digitsList_lt n n x (List.mem_reverse.mp hx)
    obtain ⟨d, ds, hBE⟩ : ∃ d ds, (digitsList n n).reverse = d :: ds := by
      cases hrev : (digitsList n n).reverse with
      | nil => exact absurd (List.reverse_eq_nil_iff.mp hrev) hne
      | cons a l => exact ⟨a, l, rfl⟩
    have hd10 : d < 10 := hlt d (by simp [hBE])
    have hds10 : ∀ x ∈ ds, x < 10 := fun x hx => hlt x (by simp [hBE, hx])
    have hform : natChars n ++ rest = Nat.digitChar d :: (ds.map Nat.digitChar ++ rest) := by
      simp [natChars, hn, ← List.map_reverse, hBE]
    rw [hform]
    simp only [parseNat, digitChar_isDigit d hd10, digitChar_toNat d hd10, if_pos]
    rw [parseNatAux_digits ds d rest hds10 hrest]
    have hval := foldl_reverse_digits (digitsList n n) 0
    rw [hBE] at hval
    simp only [List.foldl_cons, Nat.zero_mul, Nat.zero_add] at hval
    rw [hval, digitsList_val n n (Nat.le_refl n)]

theorem natChars_cons (n : Nat) : ∃ d cs, d < 10 ∧ natChars n = Nat.digitChar d :: cs := by
  by_cases hn : n = 0
  · exact ⟨0, [], by omega, by simp [hn, natChars]; decide⟩
  · have hne := digitsList_ne_nil n hn
    obtain ⟨d, ds, hBE⟩ : ∃ d ds, (digitsList n n).reverse = d :: ds := by
      cases hrev : (digitsList n n).reverse with
      | nil => exact absurd (List.reverse_eq_nil_iff.mp hrev) hne
      | cons a l => exact ⟨a, l, rfl⟩
    refine ⟨d, ds.map Nat.digitChar, digitsList_lt n n d (List.mem_reverse.mp (by simp [hBE])), ?_⟩
    simp [natChars, hn, ← List.map_reverse, hBE]

theorem intChars_roundtrip (n : Int) (rest : List Char) (hrest : headND rest = true) :
    parseInt (intChars n ++ rest) = some (n, rest) := by
  by_cases hn : n < 0
  · have hform : intChars n ++ rest = '-' :: (natChars n.natAbs ++ rest) := by
      simp [intChars, hn]
    rw [hform]
    simp only [parseInt, if_pos rfl]
    rw [natChars_roundtrip n.natAbs rest hrest, Option.map_some']
    have : (-(n.natAbs : Int)) = n := by omega
    rw [this]
    simp
  · obtain ⟨d, cs, hd10, hcons⟩ := natChars_cons n.toNat
    have hform : intChars n ++ rest = Nat.digitChar d :: (cs ++ rest) := by
      simp [intChars, hn, hcons]
    have hmain := natChars_roundtrip n.toNat rest hrest
    rw [hcons] at hmain
    rw [hform]
    simp only [parseInt, if_neg ((digitChar_props d hd10).2.1)]
    simp only [List.cons_append] at hmain
    rw [hmain, Option.map_some']
    have : ((n.toNat : Int)) = n := by omega
    rw [this]

/-! ### Round-trip lemmas for values and fields -/

theorem strOK_spec {s : String} (h : strOK s = true) : ∀ c ∈ s.data, c ≠ qc := by
  intro c hc
  have := List.all_eq_true.mp h c hc
  simpa using this

theorem valChars_roundtrip (v : Val) (rest : List Char) (hv : Val.wf v = true)
    (hrest : headND rest = true) :
    parseVal (valChars v ++ rest) = some (v, rest) := by
  cases v with
  | str s =>
    have hs : ∀ c ∈ s.data, c ≠ qc := strOK_spec (by simpa [Val.wf] using hv)
    have hform : valChars (Val.str s) ++ rest = qc :: (s.data ++ qc :: rest) := by
      simp [valChars]
    rw [hform]
    simp [parseVal, scanStr_append s.data rest hs, mk_data]
  | int n =>
    obtain ⟨c, cs, hcons, hcq⟩ : ∃ c cs, intChars n = c :: cs ∧ c ≠ qc := by
      by_cases hn : n < 0
      · exact ⟨'-', natChars n.natAbs, by simp [intChars, hn], by decide⟩
      · obtain ⟨d, cs, hd10, h⟩ := natChars_cons n.toNat
        exact ⟨Nat.digitChar d, cs, by simp [intChars, hn, h], (digitChar_props d hd10).1⟩
    have hform : valChars (Val.int n) ++ rest = c :: (cs ++ rest) := by
      simp [valChars, hcons]
    rw [hform]
    simp only [parseVal, if_neg hcq]
    have h2 : c :: (cs ++ rest) = intChars n ++ rest := by simp [hcons]
    rw [h2, intChars_roundtrip n rest hrest, Option.map_some']

theorem fieldChars_roundtrip (f : Field) (rest : List Char) (hf : Field.wf f = true) :
    parseField (fieldChars f ++ rest) = some (f, rest) := by
  cases f with
  | metric n =>
    have hs : ∀ c ∈ n.data, c ≠ qc := strOK_spec (by simpa [Field.wf] using hf)
    have hform : fieldChars (.metric n) ++ rest =
        'M' :: (("etric('").data ++ (n.data ++ qc :: (')' :: rest))) := by
      (simp [fieldChars]; decide)
    rw [hform]
    simp only [parseField]
    rw [expects_append]
    simp [scanStr_append n.data (')' :: rest) hs, expects, mk_data]
  | summary n =>
    have hs : ∀ c ∈ n.data, c ≠ qc := strOK_spec (by simpa [Field.wf] using hf)
    have hform : fieldChars (.summary n) ++ rest =
        'S' :: (("ummary('").data ++
          (n.data ++ qc :: (')' :: '.' :: 'v' :: 'a' :: 'l' :: 'u' :: 'e' :: rest))) := by
      (simp [fieldChars]; decide)
    rw [hform]
    simp only [parseField]
    rw [expects_append]
    simp [scanStr_append n.data (')' :: '.' :: 'v' :: 'a' :: 'l' :: 'u' :: 'e' :: rest) hs,
      expects, mk_data]
  | config n =>
    have hs : ∀ c ∈ n.data, c ≠ qc := strOK_spec (by simpa [Field.wf] using hf)
    have hform : fieldChars (.config n) ++ rest =
        'C' :: (("onfig('").data ++
          (n.data ++ qc :: (')' :: '.' :: 'v' :: 'a' :: 'l' :: 'u' :: 'e' :: rest))) := by
      (simp [fieldChars]; decide)
    rw [hform]
    simp only [parseField]
    rw [expects_append]
    simp [scanStr_append n.data (')' :: '.' :: 'v' :: 'a' :: 'l' :: 'u' :: 'e' :: rest) hs,
      expects, mk_data]

/-! ### Round-trip lemmas for value lists, atoms and whole filters -/

theorem valChars_head (v : Val) : ∃ c cs, valChars v = c :: cs ∧ c ≠ ']' := by
  cases v with
  | str s => exact ⟨qc, s.data ++ [qc], by simp [valChars], by decide⟩
  | int n =>
    by_cases hn : n < 0
    · exact ⟨'-', natChars n.natAbs, by simp [valChars, intChars, hn], by decide⟩
    · obtain ⟨d, cs, hd10, h⟩ := natChars_cons n.toNat
      exact ⟨Nat.digitChar d, cs, by simp [valChars, intChars, hn, h],
        (digitChar_props d hd10).2.2⟩

theorem valListChars_len (vs : List Val) : vs.length ≤ (valListChars vs).length := by
  induction vs with
  | nil => simp [valListChars]
  | cons v vs ih =>
    obtain ⟨c, cs, hc, -⟩ := valChars_head v
    cases vs with
    | nil => simp [valListChars, hc]
    | cons v' vs' =>
      simp only [valListChars, hc, List.length_append, List.length_cons]
      simp only [List.length_cons] at ih
      omega

theorem parseValsNE_roundtrip (vs : List Val) : ∀ (fuel : Nat) (rest : List Char),
    vs ≠ [] → vs.length ≤ fuel → (∀ v ∈ vs, Val.wf v = true) →
    parseValsNE fuel (valListChars vs ++ ']' :: rest) = some (vs, rest) := by
  induction vs with
  | nil => intro fuel rest h; exact absurd rfl h
  | cons v vs ih =>
    intro fuel rest hne hfu hwf
    obtain ⟨k, rfl⟩ : ∃ k, fuel = k + 1 := by
      refine ⟨fuel - 1, ?_⟩
      simp only [List.length_cons] at hfu
      omega
    cases vs with
    | nil =>
      have hv := hwf v (by simp)
      show parseValsNE (k + 1) (valChars v ++ ']' :: rest) = some ([v], rest)
      simp only [parseValsNE]
      rw [valChars_roundtrip v (']' :: rest) hv (by rfl)]
      rfl
    | cons v' vs' =>
      have hv := hwf v (by simp)
      have hshape : valListChars (v :: v' :: vs') ++ ']' :: rest =
          valChars v ++ (',' :: ' ' :: (valListChars (v' :: vs') ++ ']' :: rest)) := by
        simp [valListChars]
      rw [hshape]
      simp only [parseValsNE]
      rw [valChars_roundtrip v _ hv (by rfl)]
      show (parseValsNE k (valListChars (v' :: vs') ++ ']' :: rest)).map
          (fun q => (v :: q.1, q.2)) = some (v :: v' :: vs', rest)
      rw [ih k rest (by simp) (by simp only [List.length_cons] at hfu ⊢; omega)
        (fun x hx => hwf x (by simp [hx]))]
      rfl

theorem parseValList_roundtrip (vs : List Val) (rest : List Char)
    (hwf : ∀ v ∈ vs, Val.wf v = true) :
    parseValList (valListChars vs ++ ']' :: rest) = some (vs, rest) := by
  cases vs with
  | nil => simp [valListChars, parseValList, expects]
  | cons v vs =>
    obtain ⟨c, cs, hc, hcne⟩ := valChars_head v
    obtain ⟨t, ht⟩ : ∃ t, valListChars (v :: vs) = c :: t := by
      cases vs with
      | nil => exact ⟨cs, by simp [valListChars, hc]⟩
      | cons v' vs' =>
        exact ⟨cs ++ (", ").data ++ valListChars (v' :: vs'), by simp [valListChars, hc]⟩
    have hexp : expects (("]").data) (valListChars (v :: vs) ++ ']' :: rest) = none := by
      rw [ht, dataRB]
      exact expects_cons_ne [] (t ++ ']' :: rest) hcne
    simp only [parseValList, hexp]
    refine parseValsNE_roundtrip (v :: vs) _ rest (by simp) ?_ hwf
    have h1 := valListChars_len (v :: vs)
    simp only [List.length_cons] at h1
    simp only [List.length_append, List.length_cons]
    omega

theorem parseOpRhs_cmp (f : Field) (o : Op) (v : Val) (rest : List Char)
    (hv : Val.wf v = true) (hrest : headND rest = true) :
    parseOpRhs f (opChars o ++ ' ' :: (valChars v ++ rest)) = some (.cmp f o v, rest) := by
  cases o <;>
    simp [opChars, parseOpRhs, parseCmpRhs, valChars_roundtrip v rest hv hrest]

theorem parseOpRhs_isin (f : Field) (vs : List Val) (rest : List Char)
    (hwf : ∀ v ∈ vs, Val.wf v = true) :
    parseOpRhs f ('i' :: 'n' :: ' ' :: '[' :: (valListChars vs ++ ']' :: rest)) =
      some (.isin f vs, rest) := by
  simp only [parseOpRhs]
  rw [parseValList_roundtrip vs rest hwf]
  rfl

theorem parseAtom_roundtrip (a : FilterExpr) (rest : List Char)
    (ha : atomWF a = true) (hrest : headND rest = true) :
    parseAtom (atomChars a ++ rest) = some (a, rest) := by
  cases a with
  | cmp f o v =>
    simp only [atomWF, Bool.and_eq_true] at ha
    have hshape : atomChars (.cmp f o v) ++ rest =
        fieldChars f ++ (' ' :: (opChars o ++ ' ' :: (valChars v ++ rest))) := by
      simp [atomChars]
    rw [hshape]
    simp only [parseAtom]
    rw [fieldChars_roundtrip f _ ha.1]
    exact parseOpRhs_cmp f o v rest ha.2 hrest
  | isin f vs =>
    simp only [atomWF, Bool.and_eq_true, List.all_eq_true] at ha
    have hshape : atomChars (.isin f vs) ++ rest =
        fieldChars f ++ (' ' :: 'i' :: 'n' :: ' ' :: '[' :: (valListChars vs ++ ']' :: rest)) := by
      simp [atomChars]
    rw [hshape]
    simp only [parseAtom]
    rw [fieldChars_roundtrip f _ ha.1]
    exact parseOpRhs_isin f vs rest ha.2

theorem atomChars_ne_nil (a : FilterExpr) : atomChars a ≠ [] := by
  rcases a with ⟨f, o, v⟩ | ⟨f, vs⟩ <;> rcases f with n | n | n <;>
    simp [atomChars, fieldChars]

theorem filtersChars_len (fs : Filters) : fs.length ≤ (filtersChars fs).length := by
  induction fs with
  | nil => simp [filtersChars]
  | cons a fs ih =>
    obtain ⟨c, cs, hc⟩ := List.exists_cons_of_ne_nil (atomChars_ne_nil a)
    cases fs with
    | nil => simp [filtersChars, hc]
    | cons b fs' =>
      simp only [filtersChars, hc, List.length_append, List.length_cons]
      simp only [List.length_cons] at ih
      omega

theorem parseAtomsNE_roundtrip (fs : Filters) : ∀ (fuel : Nat),
    fs ≠ [] → fs.length ≤ fuel → filtersWF fs = true →
    parseAtomsNE fuel (filtersChars fs) = some fs := by
  induction fs with
  | nil => intro fuel h; exact absurd rfl h
  | cons a fs ih =>
    intro fuel hne hfu hwf
    simp only [filtersWF, List.all_cons, Bool.and_eq_true] at hwf
    obtain ⟨k, rfl⟩ : ∃ k, fuel = k + 1 := by
      refine ⟨fuel - 1, ?_⟩
      simp only [List.length_cons] at hfu
      omega
    cases fs with
    | nil =>
      show parseAtomsNE (k + 1) (filtersChars [a]) = some [a]
      have h1 : filtersChars [a] = atomChars a ++ [] := by simp [filtersChars]
      rw [h1]
      simp only [parseAtomsNE]
      rw [parseAtom_roundtrip a [] hwf.1 (by rfl)]
      rfl
    | cons b fs' =>
      have hshape : filtersChars (a :: b :: fs') =
          atomChars a ++ (' ' :: 'a' :: 'n' :: 'd' :: ' ' :: filtersChars (b :: fs')) := by
        simp [filtersChars]
      rw [hshape]
      simp only [parseAtomsNE]
      rw [parseAtom_roundtrip a _ hwf.1 (by rfl)]
      show (parseAtomsNE k (filtersChars (b :: fs'))).map (fun rest => a :: rest) =
        some (a :: b :: fs')
      rw [ih k (by simp) (by simp only [List.length_cons] at hfu ⊢; omega) hwf.2]
      rfl

theorem parse_serialize (fs : Filters) (hwf : filtersWF fs = true) :
    parseFilters (serializeFilters fs) = some fs := by
  cases fs with
  | nil => rfl
  | cons a fs' =>
    show parseFiltersL (filtersChars (a :: fs')) = some (a :: fs')
    have hlen : (a :: fs').length ≤ (filtersChars (a :: fs')).length := filtersChars_len _
    obtain ⟨c, cs, hc⟩ : ∃ c cs, filtersChars (a :: fs') = c :: cs := by
      obtain ⟨c, cs, h⟩ := List.exists_cons_of_ne_nil (atomChars_ne_nil a)
      cases fs' with
      | nil => exact ⟨c, cs, by simp [filtersChars, h]⟩
      | cons b fs'' =>
        exact ⟨c, cs ++ (" and ").data ++ filtersChars (b :: fs''), by simp [filtersChars, h]⟩
    rw [hc]
    simp only [parseFiltersL]
    rw [← hc]
    exact parseAtomsNE_roundtrip (a :: fs') _ (by simp) hlen hwf

/-! ### The grammar rejects boolean OR -/

theorem parseFiltersL_or (a b : FilterExpr) (ha : atomWF a = true) :
    parseFiltersL (atomChars a ++ ' ' :: 'o' :: 'r' :: ' ' :: atomChars b) = none := by
  obtain ⟨c, cs, hc⟩ := List.exists_cons_of_ne_nil (atomChars_ne_nil a)
  have ht : atomChars a ++ ' ' :: 'o' :: 'r' :: ' ' :: atomChars b =
      c :: (cs ++ ' ' :: 'o' :: 'r' :: ' ' :: atomChars b) := by simp [hc]
  rw [ht]
  simp only [parseFiltersL, List.length_cons]
  rw [← ht]
  simp only [parseAtomsNE]
  rw [parseAtom_roundtrip a _ ha (by rfl)]
  rfl

/-! ### Saved-view backend lemmas -/

theorem le_foldr_max (l : List Nat) (x : Nat) (hx : x ∈ l) : x ≤ l.foldr max 0 := by
  induction l with
  | nil => simp at hx
  | cons a l ih =>
    simp only [List.foldr_cons]
    rcases List.mem_cons.mp hx with rfl | h
    · exact le_max_left ..
    · exact le_trans (ih h) (le_max_right ..)

theorem freshId_gt (b : Backend) : ∀ v ∈ b, v.viewId < freshId b := by
  intro v hv
  have := le_foldr_max (b.map (fun u => u.viewId)) v.viewId
    (List.mem_map_of_mem (fun u => u.viewId) hv)
  simp only [freshId]
  omega

theorem freshId_not_mem (b : Backend) : freshId b ∉ b.map (fun u => u.viewId) := by
  intro h
  obtain ⟨v, hv, hid⟩ := List.mem_map.mp h
  have := freshId_gt b v hv
  omega

theorem findView_append_ne (b : Backend) (nv : SavedView) (i : Nat) (h : nv.viewId ≠ i) :
    findView (b ++ [nv]) i = findView b i := by
  induction b with
  | nil =>
    have : (nv.viewId == i) = false := by simp [h]
    simp [findView, List.find?, this]
  | cons v b ih =>
    simp only [findView, List.cons_append, List.find?] at ih ⊢
    cases hv : (v.viewId == i) with
    | true => rfl
    | false => exact ih

theorem natChars_inj (m n : Nat) (h : natChars m = natChars n) : m = n := by
  have hm := natChars_roundtrip m [] (by rfl)
  have hn := natChars_roundtrip n [] (by rfl)
  rw [List.append_nil] at hm hn
  rw [h, hn] at hm
  simpa using hm.symm

theorem viewUrl_data (v : SavedView) : (viewUrl v).data =
    ("https://wandb.ai/").data ++ v.entity.data ++ ("/").data ++ v.project.data ++
      ("?nw=").data ++ natChars v.viewId := by
  simp [viewUrl, String.data_append, natStr]

theorem viewUrl_ne (v w : SavedView) (he : v.entity = w.entity) (hp : v.project = w.project)
    (hi : v.viewId ≠ w.viewId) : viewUrl v ≠ viewUrl w := by
  intro h
  apply hi
  have h2 := congrArg String.data h
  rw [viewUrl_data, viewUrl_data, he, hp] at h2
  exact natChars_inj _ _ (List.append_cancel_left h2)

/-! ### Report wire-format round trip -/

theorem panel_roundtrip (p : Panel) : Panel.fromSpec (Panel.toSpec p) = some p := by
  cases p <;> rfl

theorem block_roundtrip (b : Block) : Block.fromSpec (Block.toSpec b) = b := by
  cases b with
  | panelGrid ps =>
    simp only [Block.toSpec, Block.fromSpec]
    congr 1
    rw [List.filterMap_map]
    have hfn : (Panel.fromSpec ∘ Panel.toSpec) = some := funext panel_roundtrip
    rw [hfn, List.filterMap_some]
  | h1 t => rfl
  | h2 t => rfl
  | h3 t => rfl
  | p t => rfl
  | unknown ty => rfl

theorem blocks_roundtrip (bs : List Block) : (bs.map Block.toSpec).map Block.fromSpec = bs := by
  rw [List.map_map]
  have hfn : (Block.fromSpec ∘ Block.toSpec) = id := funext block_roundtrip
  rw [hfn, List.map_id]

theorem report_roundtrip (r : Report) : Report.fromSpec (Report.toSpec r) = r := by
  cases r with
  | mk e pj t d bs => simp [Report.toSpec, Report.fromSpec, blocks_roundtrip bs]

/-! ### Generated code contains each block's fragment -/

theorem mem_flatten_infix (L : List (List Char)) (x : List Char) (hx : x ∈ L) :
    ∃ l1 l2, L.flatten = l1 ++ x ++ l2 := by
  induction L with
  | nil => simp at hx
  | cons y L ih =>
    rcases List.mem_cons.mp hx with rfl | h
    · exact ⟨[], L.flatten, by simp⟩
    · obtain ⟨l1, l2, hl⟩ := ih h
      exact ⟨y ++ l1, l2, by simp [hl]⟩

/-! ### Runset semantics lemmas -/

theorem displayedRuns_default (runs : List Run) : displayedRuns {} runs = runs := by
  simp [displayedRuns, applyOrder, evalFilters]

theorem displayedRuns_perm (s : RunsetSettings) (runs : List Run) :
    (displayedRuns s runs).Perm (runs.filter (fun r => evalFilters s.filters r)) := by
  simp only [displayedRuns]
  cases ho : s.order with
  | nil => simp [applyOrder]
  | cons o os =>
    simp only [applyOrder]
    exact List.perm_insertionSort _ _

theorem groupFor_mem (g : List Field) (runs : List Run) (k : List (Option Val)) (r : Run) :
    r ∈ groupFor g runs k ↔ (r ∈ runs ∧ groupKey g r = k) := by
  simp [groupFor, List.mem_filter]

theorem groupsOf_nil (runs : List Run) : groupsOf [] runs = [runs] := by
  simp [groupsOf]

example :
    serializeFilters
      [.cmp (.metric ("Name")) .eq (.str ("sample_run")),
       .cmp (.summary ("loss")) .lt (.int 5)] =
      "Metric('Name') == 'sample_run' and Summary('loss').value < 5" := by
  decide

example :
    parseFilters ("Metric('Name') == 'sample_run' and Summary('loss').value < 5") =
      some
        [.cmp (.metric ("Name")) .eq (.str ("sample_run")),
         .cmp (.summary ("loss")) .lt (.int 5)] := by
  decide

example :
    parseFilters ("Metric('displayName') in ['test_run']") =
      some [.isin (.metric ("displayName")) [.str ("test_run")]] := by
  decide

example :
    parseFilters
      (serializeFilters
        [.isin (.config ("lr")) [.int (-3), .int 0, .int 127], .isin (.summary ("x")) []]) =
      some [.isin (.config ("lr")) [.int (-3), .int 0, .int 127], .isin (.summary ("x")) []] := by
  decide

/-! ### Claim theorems -/

/-- C1: for every filter expression built from the Metric/Summary/Config
field accessors, the comparison operators, isin, and boolean AND-combination
(well-formed: no stray quote inside a name or string constant), serializing
it to the backend string query grammar and parsing that string back — the
path taken when loading a saved view from a URL — yields the original
expression. -/
theorem c1_filter_roundtrip (fs : Filters) (hwf : filtersWF fs = true) :
    parseFilters (serializeFilters fs) = some fs :=
  parse_serialize fs hwf

theorem c1_filter_roundtrip_witness :
    filtersWF
        [.cmp (.metric ("Name")) .eq (.str ("sample_run")),
         .cmp (.config ("lr")) .gt (.int (-3)),
         .isin (.summary ("loss")) [.int 5, .str ("x")]] = true ∧
      parseFilters
        (serializeFilters
          [.cmp (.metric ("Name")) .eq (.str ("sample_run")),
           .cmp (.config ("lr")) .gt (.int (-3)),
           .isin (.summary ("loss")) [.int 5, .str ("x")]]) =
        some
          [.cmp (.metric ("Name")) .eq (.str ("sample_run")),
           .cmp (.config ("lr")) .gt (.int (-3)),
           .isin (.summary ("loss")) [.int 5, .str ("x")]] :=
  ⟨by decide, c1_filter_roundtrip _ (by decide)⟩

/-- C2: every filter expression is an AND-combination of atoms built from
the Metric/Summary/Config accessors with comparison or membership
operators, and each such (well-formed) expression serializes to a single
string of the backend grammar; that string is accepted by the grammar
parser and determines the expression uniquely. -/
theorem c2_serialize_total_inj (fs fs' : Filters) (h : filtersWF fs = true)
    (h' : filtersWF fs' = true) :
    (parseFilters (serializeFilters fs)).isSome = true ∧
      (serializeFilters fs = serializeFilters fs' → fs = fs') := by
  constructor
  · rw [parse_serialize fs h]
    rfl
  · intro he
    have h1 := parse_serialize fs h
    rw [he, parse_serialize fs' h'] at h1
    exact (Option.some.inj h1).symm

theorem c2_serialize_total_inj_witness :
    filtersWF [FilterBuilder.name ("test_run")] = true ∧
      ((parseFilters (serializeFilters [FilterBuilder.name ("test_run")])).isSome = true ∧
        (serializeFilters [FilterBuilder.name ("test_run")] =
            serializeFilters [FilterBuilder.name ("test_run")] →
          [FilterBuilder.name ("test_run")] = [FilterBuilder.name ("test_run")])) :=
  ⟨by decide,
    c2_serialize_total_inj [FilterBuilder.name ("test_run")] [FilterBuilder.name ("test_run")]
      (by decide) (by decide)⟩

/-- C3: the serializer/parser pair covers exactly the operators `==`, `!=`,
`<`, `<=`, `>`, `>=`, `isin` and boolean AND: every well-formed expression
using only those operators is accepted back by the parser, while joining
two atoms with boolean `or` is rejected by the grammar. -/
theorem c3_operator_coverage (fs : Filters) (a b : FilterExpr)
    (hwf : filtersWF fs = true) (ha : atomWF a = true) :
    (parseFilters (serializeFilters fs)).isSome = true ∧
      parseFilters (serializeFilters [a] ++ " or " ++ serializeFilters [b]) = none := by
  constructor
  · rw [parse_serialize fs hwf]
    rfl
  · show parseFiltersL (serializeFilters [a] ++ " or " ++ serializeFilters [b]).data = none
    have hd : (serializeFilters [a] ++ " or " ++ serializeFilters [b]).data =
        atomChars a ++ ' ' :: 'o' :: 'r' :: ' ' :: atomChars b := by
      simp [String.data_append, serializeFilters, filtersChars]
    rw [hd]
    exact parseFiltersL_or a b ha

theorem c3_operator_coverage_witness :
    filtersWF
        [.cmp (.metric ("state")) .ne (.str ("running")),
         .cmp (.summary ("acc")) .ge (.int 1),
         .cmp (.summary ("acc")) .le (.int 9),
         .cmp (.config ("bs")) .lt (.int 32),
         .isin (.metric ("tags")) [.str ("a")]] = true ∧
      atomWF (.cmp (.metric ("state")) .eq (.str ("finished"))) = true ∧
      ((parseFilters
          (serializeFilters
            [.cmp (.metric ("state")) .ne (.str ("running")),
             .cmp (.summary ("acc")) .ge (.int 1),
             .cmp (.summary ("acc")) .le (.int 9),
             .cmp (.config ("bs")) .lt (.int 32),
             .isin (.metric ("tags")) [.str ("a")]])).isSome = true ∧
        parseFilters
          (serializeFilters [.cmp (.metric ("state")) .eq (.str ("finished"))] ++ " or " ++
            serializeFilters [.cmp (.metric ("state")) .eq (.str ("crashed"))]) = none) :=
  ⟨by decide, by decide,
    c3_operator_coverage
      [.cmp (.metric ("state")) .ne (.str ("running")),
       .cmp (.summary ("acc")) .ge (.int 1),
       .cmp (.summary ("acc")) .le (.int 9),
       .cmp (.config ("bs")) .lt (.int 32),
       .isin (.metric ("tags")) [.str ("a")]]
      (.cmp (.metric ("state")) .eq (.str ("finished")))
      (.cmp (.metric ("state")) .eq (.str ("crashed")))
      (by decide) (by decide)⟩

/-- C4: serialization maps each UI-facing display name to the backend's
internal field name and deserialization inverts that mapping; in
particular the UI field `Name` is serialized with the internal key
`displayName`, and `FilterBuilder.name v` and the legacy string
`Metric('displayName') in [v]` denote the same backend filter. -/
theorem c4_display_name_mapping (v ui bk : String) (hv : strOK v = true)
    (hmap : (ui, bk) ∈ fieldNameMap) :
    uiToBackend ui = bk ∧ backendToUi bk = ui ∧
      serializeFilters [FilterBuilder.name v] =
        "Metric('displayName') in ['" ++ v ++ "']" ∧
      parseFilters ("Metric('displayName') in ['" ++ v ++ "']") =
        some [FilterBuilder.name v] := by
  have hwfn : filtersWF [FilterBuilder.name v] = true := by
    simp only [filtersWF, FilterBuilder.name, List.all_cons, List.all_nil, atomWF,
      Field.wf, Val.wf, Bool.and_eq_true, hv]
    decide
  have hdata : (serializeFilters [FilterBuilder.name v]).data =
      ("Metric('displayName') in ['" ++ v ++ "']").data := by
    simp only [serializeFilters, String.data_append, filtersChars, atomChars,
      FilterBuilder.name, fieldChars, valListChars, valChars]
    simp
    decide
  refine ⟨?_, ?_, ?_, ?_⟩
  · simp [fieldNameMap, Prod.ext_iff] at hmap
    rcases hmap with ⟨rfl, rfl⟩ | ⟨rfl, rfl⟩ | ⟨rfl, rfl⟩ <;> decide
  · simp [fieldNameMap, Prod.ext_iff] at hmap
    rcases hmap with ⟨rfl, rfl⟩ | ⟨rfl, rfl⟩ | ⟨rfl, rfl⟩ <;> decide
  · exact String.ext hdata
  · have h1 := parse_serialize [FilterBuilder.name v] hwfn
    have h2 : parseFilters ("Metric('displayName') in ['" ++ v ++ "']") =
        parseFilters (serializeFilters [FilterBuilder.name v]) := by
      show parseFiltersL _ = parseFiltersL _
      rw [hdata]
    rw [h2, h1]

theorem c4_display_name_mapping_witness :
    strOK ("test_run") = true ∧ (("Name"), ("displayName")) ∈ fieldNameMap ∧
      (uiToBackend ("Name") = "displayName" ∧ backendToUi ("displayName") = "Name" ∧
        serializeFilters [FilterBuilder.name ("test_run")] =
          "Metric('displayName') in ['" ++ "test_run" ++ "']" ∧
        parseFilters ("Metric('displayName') in ['" ++ "test_run" ++ "']") =
          some [FilterBuilder.name ("test_run")]) :=
  ⟨by decide, by decide,
    c4_display_name_mapping ("test_run") ("Name") ("displayName") (by decide) (by decide)⟩

/-- C5: saving a (fresh) workspace with an entity, project, name and
sections persists it on the backend as a named Saved View of that project,
and the returned address is that view's Saved View URL, which carries the
`?nw=` query parameter. -/
theorem c5_save_persists (w : Workspace) (b : Backend) (hw : w.viewId = none) :
    ∃ v : SavedView, v ∈ (w.save b).1 ∧ v.entity = w.entity ∧ v.project = w.project ∧
      v.name = w.name ∧ v.spec = w ∧ (w.save b).2 = viewUrl v ∧
      ∃ pre : String, viewUrl v = pre ++ "?nw=" ++ natStr v.viewId := by
  refine ⟨⟨w.entity, w.project, freshId b, w.name, w⟩, ?_, rfl, rfl, rfl, rfl, ?_, ?_⟩
  · simp [Workspace.save, hw]
  · simp [Workspace.save, hw]
  · exact ⟨"https://wandb.ai/" ++ w.entity ++ "/" ++ w.project, rfl⟩

theorem c5_save_persists_witness :
    (({ entity := "ent", project := "proj", name := "My View" } : Workspace).viewId = none) ∧
      (∃ v : SavedView,
        v ∈ (({ entity := "ent", project := "proj", name := "My View" } : Workspace).save []).1 ∧
        v.entity = "ent" ∧ v.project = "proj" ∧ v.name = "My View" ∧
        v.spec = ({ entity := "ent", project := "proj", name := "My View" } : Workspace) ∧
        (({ entity := "ent", project := "proj", name := "My View" } : Workspace).save []).2 =
          viewUrl v ∧
        ∃ pre : String, viewUrl v = pre ++ "?nw=" ++ natStr v.viewId) :=
  ⟨rfl, c5_save_persists { entity := "ent", project := "proj", name := "My View" } [] rfl⟩

/-- C6: a report is an ordered sequence of content blocks, and serializing
a report to the wire format then parsing it back preserves the blocks — in
particular their number and relative order. -/
theorem c6_report_blocks_roundtrip (r : Report) :
    (Report.fromSpec (Report.toSpec r)).blocks = r.blocks ∧
      (Report.toSpec r).blockSpecs.length = r.blocks.length := by
  constructor
  · rw [report_roundtrip]
  · simp [Report.toSpec]

/-- C7: a runset with no filters, no grouping and no ordering denotes all
runs of the project; filters, groupby and order are each optional with
empty defaults, and when supplied they respectively restrict (a sublist),
reorder (a permutation of the filtered runs), and partition by group key
the runs included for display. -/
theorem c7_runset_defaults :
    (({} : RunsetSettings).filters = [] ∧ ({} : RunsetSettings).groupby = [] ∧
      ({} : RunsetSettings).order = []) ∧
    (∀ runs : List Run, displayedRuns {} runs = runs) ∧
    (∀ (s : RunsetSettings) (runs : List Run),
      (runs.filter (fun r => evalFilters s.filters r)).Sublist runs) ∧
    (∀ (s : RunsetSettings) (runs : List Run),
      (displayedRuns s runs).Perm (runs.filter (fun r => evalFilters s.filters r))) ∧
    (∀ (g : List Field) (runs : List Run) (k : List (Option Val)) (r : Run),
      r ∈ groupFor g runs k ↔ (r ∈ runs ∧ groupKey g r = k)) ∧
    (∀ runs : List Run, groupsOf [] runs = [runs]) := by
  refine ⟨⟨rfl, rfl, rfl⟩, displayedRuns_default, ?_, displayedRuns_perm, groupFor_mem,
    groupsOf_nil⟩
  intro s runs
  exact List.filter_sublist _

/-- C8: for a workspace loaded from a saved view, `save_as_new_view`
appends one brand-new saved view with a fresh identifier and leaves every
existing view unchanged — each old view is still present, lookups of old
identifiers are unaffected, and the returned URL differs from the URL of
every existing view of the same project. -/
theorem c8_save_as_new_view_frame (b : Backend) (i : Nat) (w : Workspace) (v : SavedView)
    (_hload : Workspace.from_url b i = some w) (hv : v ∈ b) :
    (w.save_as_new_view b).1 = b ++ [⟨w.entity, w.project, freshId b, w.name, w⟩] ∧
      v ∈ (w.save_as_new_view b).1 ∧
      findView (w.save_as_new_view b).1 v.viewId = findView b v.viewId ∧
      freshId b ∉ b.map (fun u => u.viewId) ∧
      (v.entity = w.entity → v.project = w.project →
        (w.save_as_new_view b).2 ≠ viewUrl v) := by
  refine ⟨rfl, List.mem_append_left _ hv, ?_, freshId_not_mem b, ?_⟩
  · refine findView_append_ne b _ v.viewId ?_
    have h1 := freshId_gt b v hv
    show freshId b ≠ v.viewId
    omega
  · intro he hp
    refine viewUrl_ne ⟨w.entity, w.project, freshId b, w.name, w⟩ v he.symm hp.symm ?_
    have h1 := freshId_gt b v hv
    show freshId b ≠ v.viewId
    omega

theorem c8_save_as_new_view_frame_witness :
    (Workspace.from_url
        [⟨"ent", "proj", 1, "old",
          { entity := "ent", project := "proj", name := "old" }⟩] 1 =
      some { entity := "ent", project := "proj", name := "old", viewId := some 1 }) ∧
    ((⟨"ent", "proj", 1, "old",
        { entity := "ent", project := "proj", name := "old" }⟩ : SavedView) ∈
      [(⟨"ent", "proj", 1, "old",
        { entity := "ent", project := "proj", name := "old" }⟩ : SavedView)]) ∧
    (let w : Workspace := { entity := "ent", project := "proj", name := "old", viewId := some 1 }
     let b : Backend :=
       [⟨"ent", "proj", 1, "old", { entity := "ent", project := "proj", name := "old" }⟩]
     let v : SavedView :=
       ⟨"ent", "proj", 1, "old", { entity := "ent", project := "proj", name := "old" }⟩
     (w.save_as_new_view b).1 = b ++ [⟨w.entity, w.project, freshId b, w.name, w⟩] ∧
       v ∈ (w.save_as_new_view b).1 ∧
       findView (w.save_as_new_view b).1 v.viewId = findView b v.viewId ∧
       freshId b ∉ b.map (fun u => u.viewId) ∧
       (v.entity = w.entity → v.project = w.project →
         (w.save_as_new_view b).2 ≠ viewUrl v)) :=
  ⟨by decide, by decide,
    c8_save_as_new_view_frame
      [⟨"ent", "proj", 1, "old", { entity := "ent", project := "proj", name := "old" }⟩] 1
      { entity := "ent", project := "proj", name := "old", viewId := some 1 }
      ⟨"ent", "proj", 1, "old", { entity := "ent", project := "proj", name := "old" }⟩
      (by decide) (by decide)⟩

/-- C9: a runset accepts its filters either as a legacy grammar string or
as a list of built filters, and for the same predicate both forms denote
the same backend filter; concretely, the legacy string
`Metric('displayName') in ['test_run']` and `FilterBuilder.name "test_run"`
yield identical serialized filters. -/
theorem c9_filters_arg_equivalence (fs : Filters) (hwf : filtersWF fs = true) :
    normalizeFilters (FiltersArg.legacy (serializeFilters fs)) =
        normalizeFilters (FiltersArg.builders fs) ∧
      Runset.serializedFilters
          { entity := "e", project := "p",
            filters := FiltersArg.legacy ("Metric('displayName') in ['test_run']") } =
        Runset.serializedFilters
          { entity := "e", project := "p",
            filters := FiltersArg.builders [FilterBuilder.name ("test_run")] } := by
  constructor
  · simp only [normalizeFilters]
    exact parse_serialize fs hwf
  · decide

theorem c9_filters_arg_equivalence_witness :
    filtersWF [FilterBuilder.state ("finished")] = true ∧
      (normalizeFilters (FiltersArg.legacy (serializeFilters [FilterBuilder.state ("finished")])) =
          normalizeFilters (FiltersArg.builders [FilterBuilder.state ("finished")]) ∧
        Runset.serializedFilters
            { entity := "e", project := "p",
              filters := FiltersArg.legacy ("Metric('displayName') in ['test_run']") } =
          Runset.serializedFilters
            { entity := "e", project := "p",
              filters := FiltersArg.builders [FilterBuilder.name ("test_run")] }) :=
  ⟨by decide, c9_filters_arg_equivalence [FilterBuilder.state ("finished")] (by decide)⟩

/-- C10: `Report.to_code` is total on every report produced by
`Report.from_url`; unknown wire blocks do not make loading or code
generation fail — they surface in the generated code as a comment stating
the block could not be recreated, and that comment fragment occurs in the
generated code. -/
theorem c10_to_code_unknown_blocks (rs : ReportSpec) (ty : String)
    (hmem : Block.unknown ty ∈ (Report.from_url rs).blocks) :
    ∃ l1 l2, (Report.to_code (Report.from_url rs)).data =
        l1 ++ (blockCode (Block.unknown ty)).data ++ l2 ∧
      blockCode (Block.unknown ty) =
        "# Unknown block type: " ++ ty ++ " - this block could not be recreated\n" := by
  obtain ⟨l1, l2, hl⟩ := mem_flatten_infix
    (((Report.from_url rs).blocks).map (fun b => (blockCode b).data))
    ((blockCode (Block.unknown ty)).data)
    (List.mem_map_of_mem _ hmem)
  refine ⟨(codeHeader (Report.from_url rs)).data ++ l1, l2 ++ (codeFooter).data, ?_, rfl⟩
  simp [Report.to_code, hl]

theorem c10_to_code_unknown_blocks_witness :
    (Block.unknown ("twitter") ∈
      (Report.from_url
        { entity := "e", project := "p",
          blockSpecs := [BlockSpec.unknown ("twitter"), BlockSpec.paragraph ("hi")] }).blocks) ∧
    (∃ l1 l2,
      (Report.to_code
          (Report.from_url
            { entity := "e", project := "p",
              blockSpecs := [BlockSpec.unknown ("twitter"), BlockSpec.paragraph ("hi")] })).data =
        l1 ++ (blockCode (Block.unknown ("twitter"))).data ++ l2 ∧
      blockCode (Block.unknown ("twitter")) =
        "# Unknown block type: " ++ "twitter" ++ " - this block could not be recreated\n") :=
  ⟨by decide,
    c10_to_code_unknown_blocks
      { entity := "e", project := "p",
        blockSpecs := [BlockSpec.unknown ("twitter"), BlockSpec.paragraph ("hi")] }
      ("twitter") (by decide)⟩

end WandbWorkspaces
